import Mathlib

/-!
# Verification of the batch resolution and partitioning subsystem

Shallow embedding of `ConfiguredAssetFilesystemDataConnector`
(`great_expectations/execution_environment/data_connector/configured_asset_filesystem_data_connector.py`)
and of `ExpectColumnValuesToBeDecreasing`
(`great_expectations/expectations/core/expect_column_values_to_be_decreasing.py`),
together with proofs of the specified properties.

Helper modules that the connector imports (the regex mapping utilities, the
`Sorter` classes, `PartitionQuery`, and the parent `DataConnector` class) are
not part of the reviewed sources; they are modelled from the specification and
are marked `Modelled from the spec:` in their doc comments.
-/

namespace GE

/-! ## Pattern mapper

Modelled from the spec (§4.2 Pattern Mapper): a pattern is a single regular
expression with `len(group_names)` capture groups.  We restrict regex syntax to
sequences of literal runs and character-class capture groups (this covers the
spec's own examples, e.g. `^(?P<name>[A-Z])-(?P<id>\d+)\.csv$`), matched
possessively against the whole reference string. -/

/-- One token of a restricted regex pattern: a literal string, or a capture
group matching a maximal run of characters satisfying a class predicate. -/
inductive PatToken where
  | lit (s : String)
  | grp (cls : Char → Bool)

/-- A pattern is a token sequence (the shallow embedding of the regex string). -/
abbrev Pattern := List PatToken

/-- Number of capture groups of a pattern. -/
def numGroups : Pattern → Nat
  | [] => 0
  | .lit _ :: rest => numGroups rest
  | .grp _ :: rest => numGroups rest + 1

/-- Full possessive match of a pattern against a character list, returning the
captured group values in order (`none` on no-match).
Modelled from the spec: forward mapping "applies a single regular expression;
on match, zips group values to names positionally; on failure to match,
signals no match (not an error)". -/
def matchToks : Pattern → List Char → Option (List String)
  | [], [] => some []
  | [], _ :: _ => none
  | .lit s :: rest, cs =>
    if s.data.isPrefixOf cs then matchToks rest (cs.drop s.data.length) else none
  | .grp cls :: rest, cs =>
    (matchToks rest (cs.dropWhile cls)).map
      (fun vs => String.mk (cs.takeWhile cls) :: vs)

/-- Interleave a pattern's literals with a list of group values (the
"literal path-construction template" of the spec's reverse mapping). -/
def renderToks : Pattern → List String → List Char
  | [], _ => []
  | .lit s :: rest, vs => s.data ++ renderToks rest vs
  | .grp _ :: _, [] => []
  | .grp _ :: rest, v :: vs => v.data ++ renderToks rest vs

/-- Template substitution of the group values stored in a partition definition
back into the pattern, consuming one group name per capture group.
Modelled from the spec: reverse mapping "performs template substitution of
group values back into a literal path-construction template keyed by the same
group names; fails if a required group value is absent". -/
def substToks : Pattern → List String → List (String × String) → Option (List Char)
  | [], _, _ => some []
  | .lit s :: rest, gns, pd => (substToks rest gns pd).map (fun cs => s.data ++ cs)
  | .grp _ :: _, [], _ => none
  | .grp _ :: rest, gn :: gns, pd =>
    match pd.lookup gn with
    | none => none
    | some v => (substToks rest gns pd).map (fun cs => v.data ++ cs)

/-! Basic facts about the matcher. -/

/-- A successful full match captures exactly one value per group. -/
theorem matchToks_length {pat : Pattern} {cs : List Char} {vs : List String}
    (h : matchToks pat cs = some vs) : vs.length = numGroups pat := by
  induction pat generalizing cs vs with
  | nil =>
    cases cs with
    | nil => simp [matchToks] at h; simp [numGroups, h.symm]
    | cons c cs => simp [matchToks] at h
  | cons t rest ih =>
    cases t with
    | lit s =>
      simp only [matchToks] at h
      by_cases hp : s.data.isPrefixOf cs
      · simp [hp] at h
        simpa [numGroups] using ih h
      · simp [hp] at h
    | grp cls =>
      simp only [matchToks, Option.map_eq_some'] at h
      obtain ⟨vs', hvs', rfl⟩ := h
      simpa [numGroups] using ih hvs'

/-- A successful full match decomposes the input exactly: rendering the
captured values through the pattern reproduces the matched string. -/
theorem renderToks_of_matchToks {pat : Pattern} {cs : List Char} {vs : List String}
    (h : matchToks pat cs = some vs) : renderToks pat vs = cs := by
  induction pat generalizing cs vs with
  | nil =>
    cases cs with
    | nil => simp [matchToks] at h; simp [renderToks, h.symm]
    | cons c cs => simp [matchToks] at h
  | cons t rest ih =>
    cases t with
    | lit s =>
      simp only [matchToks] at h
      by_cases hp : s.data.isPrefixOf cs
      · simp [hp] at h
        have := ih h
        obtain ⟨tail, htail⟩ := List.isPrefixOf_iff_prefix.mp hp
        subst htail
        simp [renderToks, this, List.drop_left]
      · simp [hp] at h
    | grp cls =>
      simp only [matchToks, Option.map_eq_some'] at h
      obtain ⟨vs', hvs', rfl⟩ := h
      have := ih hvs'
      simp [renderToks, this, List.takeWhile_append_dropWhile]

/-- Substitution succeeds and reproduces the rendering when every group name
resolves pointwise to the corresponding captured value. -/
theorem substToks_of_pointwise (pat : Pattern) (gns vals : List String)
    (pd : List (String × String))
    (hlook : ∀ i, i < numGroups pat →
      ∃ gn v, gns.get? i = some gn ∧ vals.get? i = some v ∧ pd.lookup gn = some v) :
    substToks pat gns pd = some (renderToks pat vals) := by
  induction pat generalizing gns vals with
  | nil => simp [substToks, renderToks]
  | cons t rest ih =>
    cases t with
    | lit s =>
      have := ih gns vals (by simpa [numGroups] using hlook)
      simp [substToks, renderToks, this]
    | grp cls =>
      obtain ⟨gn, v, hgn, hv, hpd⟩ := hlook 0 (by simp [numGroups])
      cases gns with
      | nil => simp at hgn
      | cons gn0 gns' =>
        cases vals with
        | nil => simp at hv
        | cons v0 vals' =>
          simp only [List.get?] at hgn hv
          obtain rfl : gn0 = gn := by simpa using hgn
          obtain rfl : v0 = v := by simpa using hv
          have := ih gns' vals' (by
            intro i hi
            obtain ⟨gn', v', h1, h2, h3⟩ := hlook (i + 1) (by simp [numGroups]; omega)
            exact ⟨gn', v', by simpa using h1, by simpa using h2, h3⟩)
          simp [substToks, renderToks, hpd, this]

/-- Looking up the `i`-th name of a duplicate-free name list in the
positional zip of names with values returns the `i`-th value. -/
theorem lookup_zip_self {gns vals : List String} (hnd : gns.Nodup)
    {i : Nat} {gn v : String} (hg : gns.get? i = some gn) (hv : vals.get? i = some v) :
    (gns.zip vals).lookup gn = some v := by
  induction gns generalizing vals i with
  | nil => simp at hg
  | cons gn0 gns' ih =>
    cases vals with
    | nil => simp at hv
    | cons v0 vals' =>
      cases i with
      | zero =>
        obtain rfl : gn0 = gn := by simpa using hg
        obtain rfl : v0 = v := by simpa using hv
        simp [List.lookup]
      | succ i =>
        have hmem : gn ∈ gns' := List.get?_mem (by simpa using hg)
        have hne : (gn == gn0) = false := by
          simp only [beq_eq_false_iff_ne]
          intro hcontra
          exact (List.nodup_cons.mp hnd).1 (hcontra ▸ hmem)
        simp only [List.zip_cons_cons, List.lookup, hne]
        exact ih (List.nodup_cons.mp hnd).2 (by simpa using hg) (by simpa using hv)

/-! ## Core data model (from the source and `great_expectations.core.batch`) -/

/-- Identity of one logical batch. -/
structure BatchDefinition where
  execution_environment_name : String
  data_connector_name : String
  data_asset_name : Option String
  partition_definition : List (String × String)
deriving DecidableEq

instance : Inhabited BatchDefinition := ⟨⟨"", "", none, []⟩⟩

/-- The connector's `default_regex` configuration: a pattern plus ordered
capture-group names (the `{"pattern": ..., "group_names": [...]}` dict). -/
structure RegexConfig where
  pattern : Pattern
  group_names : List String

/-- Per-asset override record (`Asset`), all fields optional. -/
structure Asset where
  base_directory : Option String := none
  pattern : Option Pattern := none
  group_names : Option (List String) := none

/-- Modelled from the spec: a sorter's "type-specific comparison rule
(lexical, numeric, date)"; we model the lexical and numeric kinds. -/
inductive SorterKind where
  | lexicographic
  | numeric
deriving DecidableEq

/-- Modelled from the spec: a `Sorter` is a "named comparator bound to one
partition-identity field, with a direction and a type-specific comparison
rule".  The name doubles as the dict key under which
`build_sorters_from_config` stores the sorter. -/
structure Sorter where
  name : String
  descending : Bool
  kind : SorterKind

/-- A query from a caller (`BatchRequest`). -/
structure PartitionQuery where
  partition_identifiers : Option (List (String × String)) := none
  index : Option Nat := none

structure BatchRequest where
  execution_environment_name : String
  data_connector_name : String
  data_asset_name : Option String := none
  partition_request : Option PartitionQuery := none

/-- Error taxonomy.  `valueError` is Python's `ValueError` (the spec's
`NotInitializedError` / `UnresolvableBatchError` categories);
`dataConnectorError` is `ge_exceptions.DataConnectorError` (the spec's
`ConfigurationError` category); `invalidRequest` is the spec's
`InvalidRequestError` raised by `_validate_batch_request`. -/
inductive Err where
  | invalidRequest
  | dataConnectorError
  | valueError
deriving DecidableEq

/-- Engine-ready path-flavored batch spec (`PathBatchSpec`). -/
structure PathBatchSpec where
  path : String
deriving DecidableEq

/-- Immutable configuration of a `ConfiguredAssetFilesystemDataConnector`,
fixed at construction time.  `store` models the filesystem contents seen by
the reference lister: a map from a directory path to the relative names of
its immediate children matching the glob directive. -/
structure ConnectorConfig where
  name : String
  execution_environment_name : String
  base_directory : String
  assets : List (String × Asset)
  sorters : List Sorter
  store : List (String × List String)

/-- The connector's mutable attributes: `_default_regex` (a plain dict,
aliased and mutated by `_validate_sorters_configuration`) and
`_data_references_cache` (`None` until the first refresh). -/
structure ConnectorState where
  default_regex : RegexConfig
  data_references_cache :
    Option (List (String × List (String × Option (List BatchDefinition))))

/-! ## Python truthiness helpers

`if asset.pattern:` / `if asset.group_names:` / `if asset.base_directory:`
treat `None`, the empty string and the empty list as falsy. -/

/-- Python truthiness for an optional list (`None` and `[]` are falsy). -/
def optNonempty {α : Type} : Option (List α) → Option (List α)
  | some (x :: xs) => some (x :: xs)
  | _ => none

/-- Python truthiness for an optional string (`None` and `""` are falsy). -/
def optNonemptyStr : Option String → Option String
  | some s => match s.data with
    | [] => none
    | _ :: _ => some s
  | none => none

/-- Python `Path(a).joinpath(b)`: an absolute `b` replaces `a`. -/
def joinPath (a b : String) : String :=
  match b.data with
  | '/' :: _ => b
  | _ =>
    match a.data with
    | [] => b
    | _ :: _ => a ++ "/" ++ b

/-! ## Stable sorting (the Sorter classes)

Modelled from the spec (§4.3): each sorter pass is a *stable* sort on that
sorter's bound field (Python's `sorted` is stable).  We embed it as insertion
sort that inserts each element after all strictly-smaller elements and before
any equivalent one that originated later in the input. -/

/-- Stable insertion: `a` (originating earlier in the input than everything in
the list) is placed before the first element not strictly below it. -/
def insB {α : Type} (lt : α → α → Bool) (a : α) : List α → List α
  | [] => [a]
  | b :: l => if lt b a then b :: insB lt a l else a :: b :: l

/-- Stable insertion sort with a strict Bool comparator. -/
def isort {α : Type} (lt : α → α → Bool) : List α → List α
  | [] => []
  | a :: l => insB lt a (isort lt l)

/-- Equivalence induced by a strict comparator: neither side below the other. -/
def eqvB {α : Type} (lt : α → α → Bool) (a b : α) : Bool :=
  !lt a b && !lt b a

/-- Strict-weak-order facts a sorter comparator satisfies. -/
structure IsSwo {α : Type} (lt : α → α → Bool) : Prop where
  asymm : ∀ a b, lt a b = true → lt b a = false
  negtrans : ∀ a b c, lt a b = false → lt b c = false → lt a c = false

/-- Strict comparison on optional keys: a missing key sorts first. -/
def optLt {κ : Type} [LinearOrder κ] : Option κ → Option κ → Bool
  | none, none => false
  | none, some _ => true
  | some _, none => false
  | some a, some b => decide (a < b)

/-- The partition-definition field a lexicographic sorter compares. -/
def sorterKeyLex (s : Sorter) (bd : BatchDefinition) : Option String :=
  bd.partition_definition.lookup s.name

/-- Decimal parse of a partition value (Python's `int(...)`). -/
def parseNat? (s : String) : Option Nat :=
  match s.data with
  | [] => none
  | cs =>
    if cs.all Char.isDigit
    then some (cs.foldl (fun n c => n * 10 + (c.toNat - 48)) 0)
    else none

/-- The parsed numeric key a numeric sorter compares. -/
def sorterKeyNum (s : Sorter) (bd : BatchDefinition) : Option Nat :=
  (bd.partition_definition.lookup s.name).bind parseNat?

/-- Ascending comparison of one sorter's bound field. -/
def sorterLtAsc (s : Sorter) (x y : BatchDefinition) : Bool :=
  match s.kind with
  | .lexicographic => optLt (sorterKeyLex s x) (sorterKeyLex s y)
  | .numeric => optLt (sorterKeyNum s x) (sorterKeyNum s y)

/-- The comparator of one sorter, honoring its `orderby` direction. -/
def sorterLt (s : Sorter) (x y : BatchDefinition) : Bool :=
  if s.descending then sorterLtAsc s y x else sorterLtAsc s x y

/-- Method `Sorter.get_sorted_batch_definitions`: one stable pass.
Modelled from the spec (§4.3): "a stable sort at each step". -/
def get_sorted_batch_definitions (s : Sorter) (l : List BatchDefinition) :
    List BatchDefinition :=
  isort (sorterLt s) l

/-- Method `_sort_batch_definition_list`: iterate the configured sorters in reverse
declared order, one stable pass each (source lines 328–335). -/
def sort_batch_definition_list (sorters : List Sorter) (l : List BatchDefinition) :
    List BatchDefinition :=
  sorters.reverse.foldl (fun acc s => get_sorted_batch_definitions s acc) l

/-! ## Connector operations (from the source) -/

/-- Method `get_available_data_asset_names` (source lines 136–142). -/
def get_available_data_asset_names (cfg : ConnectorConfig) : List String :=
  cfg.assets.map Prod.fst

/-- The directory listed for an asset (`_get_data_reference_list`, source
lines 183–199): the connector base directory, or — when the asset has a
truthy `base_directory` — the asset directory joined onto it. -/
def dataAssetPath (cfg : ConnectorConfig) (data_asset_name : Option String) : String :=
  match data_asset_name with
  | none => cfg.base_directory
  | some an =>
    if cfg.assets.isEmpty then cfg.base_directory
    else
      match cfg.assets.lookup an with
      | none => cfg.base_directory
      | some asset =>
        match optNonemptyStr asset.base_directory with
        | none => cfg.base_directory
        | some ab => joinPath cfg.base_directory ab

/-- Method `_get_data_reference_list` (source lines 183–199).  The call to
`get_filesystem_one_level_directory_glob_path_list` is modelled from the spec
(§4.1, §6): one-level listing of the resolved directory, returning relative
child names. -/
def get_data_reference_list (cfg : ConnectorConfig)
    (data_asset_name : Option String) : List String :=
  (cfg.store.lookup (dataAssetPath cfg data_asset_name)).getD []

/-- Modelled from the spec (§4.2 forward):
`map_data_reference_string_to_batch_definition_list_using_regex` matches the
reference against the pattern and, on success, zips group values to names
positionally into a single `BatchDefinition`; no match yields `None`. -/
def map_data_reference_string_to_batch_definition_list_using_regex
    (execution_environment_name data_connector_name : String)
    (data_asset_name : Option String) (data_reference : String)
    (regex_pattern : Pattern) (group_names : List String) :
    Option (List BatchDefinition) :=
  match matchToks regex_pattern data_reference.data with
  | none => none
  | some vs =>
    some [⟨execution_environment_name, data_connector_name, data_asset_name,
           group_names.zip vs⟩]

/-- Modelled from the spec (§4.2 reverse):
`map_batch_definition_to_data_reference_string_using_regex` substitutes the
partition values back into the pattern's literal template, keyed by the group
names; a missing group value makes it fail. -/
def map_batch_definition_to_data_reference_string_using_regex
    (batch_definition : BatchDefinition) (regex_pattern : Pattern)
    (group_names : List String) : Option String :=
  (substToks regex_pattern group_names batch_definition.partition_definition).map
    String.mk

/-- The effective regex configuration: `copy.deepcopy(self._default_regex)`
with the asset's truthy `pattern` / `group_names` fields overriding the
defaults.  This identical block appears verbatim in
`_get_data_reference_list_from_cache_by_data_asset_name` (lines 214–223),
`_map_data_reference_to_batch_definition_list` (lines 342–351) and
`_map_batch_definition_to_data_reference` (lines 365–374). -/
def effectiveRegexConfig (cfg : ConnectorConfig) (st : ConnectorState)
    (data_asset_name : Option String) : RegexConfig :=
  match data_asset_name with
  | none => st.default_regex
  | some an =>
    if cfg.assets.isEmpty then st.default_regex
    else
      match cfg.assets.lookup an with
      | none => st.default_regex
      | some asset =>
        { pattern := (optNonempty asset.pattern).getD st.default_regex.pattern
          group_names :=
            (optNonempty asset.group_names).getD st.default_regex.group_names }

/-- Method `_map_data_reference_to_batch_definition_list` (source lines 337–360). -/
def map_data_reference_to_batch_definition_list (cfg : ConnectorConfig)
    (st : ConnectorState) (data_reference : String)
    (data_asset_name : Option String) : Option (List BatchDefinition) :=
  let rc := effectiveRegexConfig cfg st data_asset_name
  map_data_reference_string_to_batch_definition_list_using_regex
    cfg.execution_environment_name cfg.name data_asset_name data_reference
    rc.pattern rc.group_names

/-- Method `_map_batch_definition_to_data_reference` (source lines 362–380). -/
def map_batch_definition_to_data_reference (cfg : ConnectorConfig)
    (st : ConnectorState) (batch_definition : BatchDefinition) : Option String :=
  let rc := effectiveRegexConfig cfg st batch_definition.data_asset_name
  map_batch_definition_to_data_reference_string_using_regex batch_definition
    rc.pattern rc.group_names

/-- Python dict assignment `d[k] = v` on an association list: update in place
if the key exists, append otherwise. -/
def dictInsert {α : Type} (k : String) (v : α) :
    List (String × α) → List (String × α)
  | [] => [(k, v)]
  | (k', v') :: rest =>
    if k' == k then (k, v) :: rest else (k', v') :: dictInsert k v rest

/-- The per-asset sub-cache built by `_refresh_data_references_cache`:
`self._data_references_cache[a][ref] = mapped_batch_definition_list`. -/
def refreshSubCache (cfg : ConnectorConfig) (st : ConnectorState)
    (data_asset_name : String) : List (String × Option (List BatchDefinition)) :=
  (get_data_reference_list cfg (some data_asset_name)).foldl
    (fun sub r =>
      dictInsert r
        (map_data_reference_to_batch_definition_list cfg st r (some data_asset_name))
        sub)
    []

/-- Method `_refresh_data_references_cache` (source lines 163–181): full rebuild of
the two-level cache from the reference lister and the pattern mapper. -/
def refresh_data_references_cache (cfg : ConnectorConfig) (st : ConnectorState) :
    ConnectorState :=
  { st with
    data_references_cache :=
      some ((get_available_data_asset_names cfg).foldl
        (fun c an => dictInsert an (refreshSubCache cfg st an) c) []) }

/-- Method `get_data_reference_list_count` (source lines 239–249). -/
def get_data_reference_list_count (st : ConnectorState) : Except Err Nat :=
  match st.data_references_cache with
  | none => .error .valueError
  | some c => .ok (c.foldl (fun total p => total + p.2.length) 0)

/-- Method `get_unmatched_data_references` (source lines 251–259): reference keys
whose mapped list is `None`, collected across assets in cache order. -/
def get_unmatched_data_references (st : ConnectorState) :
    Except Err (List String) :=
  match st.data_references_cache with
  | none => .error .valueError
  | some c =>
    .ok (c.foldl
      (fun acc p =>
        acc ++ p.2.filterMap (fun q => if q.2.isNone then some q.1 else none))
      [])

/-- Modelled from the spec (§4.6 step 1): `_validate_batch_request` (defined
on the parent `DataConnector`) checks the request's environment and connector
names against the connector's, and that the asset name, if given, is known. -/
def validate_batch_request (cfg : ConnectorConfig) (req : BatchRequest) : Bool :=
  req.execution_environment_name == cfg.execution_environment_name &&
  req.data_connector_name == cfg.name &&
  (match req.data_asset_name with
   | none => true
   | some an => (cfg.assets.lookup an).isSome)

/-- The state after the `# Override the default` block of
`_validate_sorters_configuration` (source lines 304–313): the method binds
`regex_config = self._default_regex` *without* `copy.deepcopy`, so writing the
asset's truthy `group_names` into `regex_config` mutates the connector's
stored `_default_regex` in place. -/
def sorterOverrideState (cfg : ConnectorConfig) (st : ConnectorState)
    (data_asset_name : Option String) : ConnectorState :=
  match data_asset_name with
  | none => st
  | some an =>
    if cfg.assets.isEmpty then st
    else
      match cfg.assets.lookup an with
      | none => st
      | some asset =>
        match optNonempty asset.group_names with
        | none => st
        | some gns =>
          { st with default_regex := { st.default_regex with group_names := gns } }

/-- Method `_validate_sorters_configuration` (source lines 303–326). -/
def validate_sorters_configuration (cfg : ConnectorConfig) (st : ConnectorState)
    (data_asset_name : Option String) : Except Err Unit × ConnectorState :=
  if 0 < cfg.sorters.length then
    let st' := sorterOverrideState cfg st data_asset_name
    let group_names := st'.default_regex.group_names
    if cfg.sorters.any (fun s => !(group_names.contains s.name)) then
      (.error .dataConnectorError, st')
    else if group_names.length < cfg.sorters.length then
      (.error .dataConnectorError, st')
    else (.ok (), st')
  else (.ok (), st)

/-- Modelled from the spec (§4.6 step 4):
`batch_definition_matches_batch_request` keeps definitions whose environment,
connector and (when requested) asset fields equal the request's. -/
def batch_definition_matches_batch_request (bd : BatchDefinition)
    (req : BatchRequest) : Bool :=
  bd.execution_environment_name == req.execution_environment_name &&
  bd.data_connector_name == req.data_connector_name &&
  (match req.data_asset_name with
   | none => true
   | some an => bd.data_asset_name == some an)

/-- Modelled from the spec (§4.4 Partition Query): select by exact-match
criteria first, then by positional index within the result. -/
def select_from_partition_request (pq : PartitionQuery)
    (l : List BatchDefinition) : List BatchDefinition :=
  let l1 :=
    match pq.partition_identifiers with
    | none => l
    | some crit =>
      l.filter (fun bd =>
        crit.all (fun kv => bd.partition_definition.lookup kv.1 == some kv.2))
  match pq.index with
  | none => l1
  | some i => (l1.get? i).toList

/-- The candidate collection of `get_batch_definition_list_from_batch_request`
(source lines 271–284): the first batch definition of every non-`None` cache
entry, in cache enumeration order. -/
def collectCandidates
    (cache : List (String × List (String × Option (List BatchDefinition)))) :
    List BatchDefinition :=
  cache.flatMap (fun p => p.2.filterMap (fun q => q.2.map List.headI))

/-- Method `get_batch_definition_list_from_batch_request` (source lines 261–300),
with the connector's mutable attributes threaded explicitly. -/
def get_batch_definition_list_from_batch_request (cfg : ConnectorConfig)
    (st : ConnectorState) (req : BatchRequest) :
    Except Err (List BatchDefinition) × ConnectorState :=
  if !(validate_batch_request cfg req) then (.error .invalidRequest, st)
  else
    match validate_sorters_configuration cfg st req.data_asset_name with
    | (.error e, st') => (.error e, st')
    | (.ok _, st') =>
      let st'' :=
        if st'.data_references_cache.isNone
        then refresh_data_references_cache cfg st'
        else st'
      let cache := st''.data_references_cache.getD []
      let l1 := (collectCandidates cache).filter
        (fun bd => batch_definition_matches_batch_request bd req)
      let l2 :=
        match req.partition_request with
        | none => l1
        | some pq => select_from_partition_request pq l1
      let l3 :=
        if 0 < cfg.sorters.length then sort_batch_definition_list cfg.sorters l2
        else l2
      (.ok l3, st'')

/-- Method `_generate_batch_spec_parameters_from_batch_definition` (source lines
382–396): reverse-map the definition, fail on a falsy path, and join the
result onto `self.base_directory`. -/
def generate_batch_spec_parameters_from_batch_definition (cfg : ConnectorConfig)
    (st : ConnectorState) (batch_definition : BatchDefinition) :
    Except Err String :=
  match map_batch_definition_to_data_reference cfg st batch_definition with
  | none => .error .valueError
  | some p =>
    if p.isEmpty then .error .valueError
    else .ok (joinPath cfg.base_directory p)

/-- Method `build_batch_spec` (source lines 398–403); the parent's `build_batch_spec`
is modelled from the spec (§4.6): it wraps the generated parameters into a
path-flavored `BatchSpec`. -/
def build_batch_spec (cfg : ConnectorConfig) (st : ConnectorState)
    (batch_definition : BatchDefinition) : Except Err PathBatchSpec :=
  (generate_batch_spec_parameters_from_batch_definition cfg st batch_definition).map
    PathBatchSpec.mk

/-! ## C1: round-trip inverse consistency of the pattern mapper -/

/-- Claim C1. For every `BatchDefinition` produced by a cache refresh — i.e.
whenever the forward mapping `_map_data_reference_to_batch_definition_list`
maps a real raw reference `r` of asset `a` to `[bd]` under the asset's
effective pattern and group names — reverse-mapping `bd` through
`_map_batch_definition_to_data_reference` yields a raw reference (in fact `r`
itself) whose forward mapping is again exactly `[bd]`.  The effective group
names are assumed duplicate-free and in bijection with the pattern's capture
groups, as Python's `re` enforces for named groups. -/
theorem roundtrip_data_reference (cfg : ConnectorConfig) (st : ConnectorState)
    (a r : String) (bd : BatchDefinition)
    (hnd : (effectiveRegexConfig cfg st (some a)).group_names.Nodup)
    (hlen : (effectiveRegexConfig cfg st (some a)).group_names.length
            = numGroups (effectiveRegexConfig cfg st (some a)).pattern)
    (hfwd : map_data_reference_to_batch_definition_list cfg st r (some a)
            = some [bd]) :
    map_batch_definition_to_data_reference cfg st bd = some r ∧
    map_data_reference_to_batch_definition_list cfg st r (some a) = some [bd] := by
  refine ⟨?_, hfwd⟩
  simp only [map_data_reference_to_batch_definition_list,
    map_data_reference_string_to_batch_definition_list_using_regex] at hfwd
  rcases hm : matchToks (effectiveRegexConfig cfg st (some a)).pattern r.data with
    _ | vs
  · rw [hm] at hfwd; exact absurd hfwd (by simp)
  · rw [hm] at hfwd
    have hbd : bd = ⟨cfg.execution_environment_name, cfg.name, some a,
        (effectiveRegexConfig cfg st (some a)).group_names.zip vs⟩ := by
      have := hfwd
      simp only [Option.some.injEq, List.cons.injEq, and_true] at this
      exact this.symm
    have hvslen : vs.length
        = numGroups (effectiveRegexConfig cfg st (some a)).pattern :=
      matchToks_length hm
    have hsub : substToks (effectiveRegexConfig cfg st (some a)).pattern
        (effectiveRegexConfig cfg st (some a)).group_names
        ((effectiveRegexConfig cfg st (some a)).group_names.zip vs)
        = some (renderToks (effectiveRegexConfig cfg st (some a)).pattern vs) := by
      apply substToks_of_pointwise
      intro i hi
      have hig : i < (effectiveRegexConfig cfg st (some a)).group_names.length := by
        omega
      have hiv : i < vs.length := by omega
      refine ⟨(effectiveRegexConfig cfg st (some a)).group_names.get ⟨i, hig⟩,
        vs.get ⟨i, hiv⟩, List.get?_eq_get hig, List.get?_eq_get hiv, ?_⟩
      exact lookup_zip_self hnd (List.get?_eq_get hig) (List.get?_eq_get hiv)
    have hren : renderToks (effectiveRegexConfig cfg st (some a)).pattern vs
        = r.data := renderToks_of_matchToks hm
    subst hbd
    simp only [map_batch_definition_to_data_reference,
      map_batch_definition_to_data_reference_string_using_regex]
    rw [show (effectiveRegexConfig cfg st (some a)) =
      effectiveRegexConfig cfg st
        (BatchDefinition.mk cfg.execution_environment_name cfg.name (some a)
          ((effectiveRegexConfig cfg st (some a)).group_names.zip vs)).data_asset_name
      from rfl] at hsub hren ⊢
    rw [hsub, hren]
    simp

/-- Witness for C1: a concrete connector whose asset `alpha` uses the default
pattern `(?P<name>[A-Z]+)-(?P<id>[0-9]+)\.csv` discovers `A-100.csv`; the
resulting definition reverse-maps to `A-100.csv` and forward-maps back to
itself. -/
theorem roundtrip_data_reference_witness :
    map_batch_definition_to_data_reference
      ⟨"conn", "env", "/base", [("alpha", ⟨none, none, none⟩)], [],
        [("/base", ["A-100.csv"])]⟩
      ⟨⟨[.grp (fun c => c.isUpper), .lit "-", .grp (fun c => c.isDigit),
          .lit ".csv"], ["name", "id"]⟩, none⟩
      ⟨"env", "conn", some "alpha", [("name", "A"), ("id", "100")]⟩
      = some "A-100.csv" ∧
    map_data_reference_to_batch_definition_list
      ⟨"conn", "env", "/base", [("alpha", ⟨none, none, none⟩)], [],
        [("/base", ["A-100.csv"])]⟩
      ⟨⟨[.grp (fun c => c.isUpper), .lit "-", .grp (fun c => c.isDigit),
          .lit ".csv"], ["name", "id"]⟩, none⟩
      "A-100.csv" (some "alpha")
      = some [⟨"env", "conn", some "alpha", [("name", "A"), ("id", "100")]⟩] :=
  roundtrip_data_reference _ _ "alpha" "A-100.csv" _
    (by simp [effectiveRegexConfig, optNonempty]) (by rfl) (by rfl)

/-! ## C7: refresh idempotence -/

/-- Claim C7. With the store and configuration fixed (both live in
`ConnectorConfig`, and a refresh never touches `_default_regex`), running
`_refresh_data_references_cache` twice produces exactly the state a single
run produces: the same asset keys, reference keys and batch-definition lists. -/
theorem refresh_data_references_cache_idempotent (cfg : ConnectorConfig)
    (st : ConnectorState) :
    refresh_data_references_cache cfg (refresh_data_references_cache cfg st)
      = refresh_data_references_cache cfg st := rfl

/-! ## C8: not-initialized error vs. valid empty count -/

/-- Appending a binding for a fresh key. -/
theorem dictInsert_fresh {α : Type} (k : String) (v : α)
    (l : List (String × α)) (h : ∀ p ∈ l, p.1 ≠ k) :
    dictInsert k v l = l ++ [(k, v)] := by
  induction l with
  | nil => rfl
  | cons p rest ih =>
    have hp : p.1 ≠ k := h p (by simp)
    simp only [dictInsert]
    rw [if_neg (by simpa using hp)]
    simp [ih (fun q hq => h q (by simp [hq]))]

/-- Folding dict assignments over duplicate-free keys builds the literal map. -/
theorem foldl_dictInsert_map {α : Type} (f : String → α) (names : List String)
    (hnod : names.Nodup) (acc : List (String × α))
    (hacc : ∀ p ∈ acc, p.1 ∉ names) :
    names.foldl (fun c an => dictInsert an (f an) c) acc
      = acc ++ names.map (fun an => (an, f an)) := by
  induction names generalizing acc with
  | nil => simp
  | cons an0 rest ih =>
    have hfresh : ∀ p ∈ acc, p.1 ≠ an0 := by
      intro p hp
      have := hacc p hp
      simp at this
      exact this.1
    simp only [List.foldl_cons]
    rw [dictInsert_fresh an0 (f an0) acc hfresh]
    rw [ih (List.nodup_cons.mp hnod).2 (acc ++ [(an0, f an0)]) ?hfr]
    · simp
    · intro p hp
      rcases List.mem_append.mp hp with hl | hr
      · intro hmem
        exact (hacc p hl) (by simp [hmem])
      · simp only [List.mem_singleton] at hr
        intro hmem
        rw [hr] at hmem
        exact (List.nodup_cons.mp hnod).1 hmem

/-- Left-fold accumulation of lengths is the sum of lengths. -/
theorem foldl_add_apply {α : Type} (g : α → Nat) (l : List α) (n : Nat) :
    l.foldl (fun t p => t + g p) n = n + (l.map g).sum := by
  induction l generalizing n with
  | nil => simp
  | cons x xs ih => simp [ih]; omega

/-- The refreshed cache is the literal per-asset map of listings. -/
theorem refresh_cache_eq (cfg : ConnectorConfig) (st : ConnectorState)
    (hnodA : (cfg.assets.map Prod.fst).Nodup) :
    (refresh_data_references_cache cfg st).data_references_cache
      = some ((get_available_data_asset_names cfg).map
          (fun an => (an, refreshSubCache cfg st an))) := by
  simp only [refresh_data_references_cache]
  rw [foldl_dictInsert_map (fun an => refreshSubCache cfg st an)
    (get_available_data_asset_names cfg)
    (by simpa [get_available_data_asset_names] using hnodA) [] (by simp)]
  simp

/-- Each per-asset sub-cache is the literal per-reference map of the listing. -/
theorem refreshSubCache_eq (cfg : ConnectorConfig) (st : ConnectorState)
    (an : String) (hnodR : (get_data_reference_list cfg (some an)).Nodup) :
    refreshSubCache cfg st an
      = (get_data_reference_list cfg (some an)).map
          (fun r =>
            (r, map_data_reference_to_batch_definition_list cfg st r (some an))) := by
  simp only [refreshSubCache]
  rw [foldl_dictInsert_map _ _ hnodR [] (by simp)]
  simp

/-- Claim C8. `get_data_reference_list_count` errors (Python `ValueError`, the
spec's `NotInitializedError`) exactly when no refresh has populated the cache;
after a refresh it returns the total number of discovered references across
all assets — matched and unmatched alike, since every listed reference is
stored — and an empty store yields the valid count `0`, not an error.
Asset names are dict keys and directory listings are duplicate-free. -/
theorem count_not_initialized_vs_empty (cfg : ConnectorConfig)
    (st : ConnectorState)
    (hnodA : (cfg.assets.map Prod.fst).Nodup)
    (hnodR : ∀ a, (get_data_reference_list cfg (some a)).Nodup) :
    ((∃ e, get_data_reference_list_count st = .error e)
        ↔ st.data_references_cache = none) ∧
    get_data_reference_list_count (refresh_data_references_cache cfg st)
      = .ok (((get_available_data_asset_names cfg).map
          (fun a => (get_data_reference_list cfg (some a)).length)).sum) := by
  constructor
  · cases hc : st.data_references_cache with
    | none => simp [get_data_reference_list_count, hc]
    | some c => simp [get_data_reference_list_count, hc]
  · have hc := refresh_cache_eq cfg st hnodA
    simp only [get_data_reference_list_count, hc]
    rw [foldl_add_apply]
    simp only [Nat.zero_add, List.map_map]
    congr 1
    congr 1
    apply List.map_congr_left
    intro an _
    simp [Function.comp, refreshSubCache_eq cfg st an (hnodR an)]

/-- Witness for C8: a connector with one asset whose directory holds a
matching and a non-matching file counts 2 after refresh (matched plus
unmatched), and a fresh connector (cache `None`) errors. -/
theorem count_not_initialized_vs_empty_witness :
    ((∃ e, get_data_reference_list_count
        ⟨⟨[], ["g"]⟩, none⟩ = .error e) ↔
      (⟨⟨[], ["g"]⟩, none⟩ : ConnectorState).data_references_cache = none) ∧
    get_data_reference_list_count
      (refresh_data_references_cache
        ⟨"conn", "env", "/base", [("alpha", ⟨none, none, none⟩)], [],
          [("/base", ["A-100.csv", "junk.txt"])]⟩
        ⟨⟨[.grp (fun c => c.isUpper), .lit "-", .grp (fun c => c.isDigit),
            .lit ".csv"], ["name", "id"]⟩, none⟩)
      = .ok (((get_available_data_asset_names
          ⟨"conn", "env", "/base", [("alpha", ⟨none, none, none⟩)], [],
            [("/base", ["A-100.csv", "junk.txt"])]⟩).map
          (fun a => (get_data_reference_list
            ⟨"conn", "env", "/base", [("alpha", ⟨none, none, none⟩)], [],
              [("/base", ["A-100.csv", "junk.txt"])]⟩ (some a)).length)).sum) :=
  count_not_initialized_vs_empty _
    ⟨⟨[.grp (fun c => c.isUpper), .lit "-", .grp (fun c => c.isDigit),
        .lit ".csv"], ["name", "id"]⟩, none⟩
    (by decide)
    (by
      intro a
      have hlist : get_data_reference_list
          ⟨"conn", "env", "/base", [("alpha", ⟨none, none, none⟩)], [],
            [("/base", ["A-100.csv", "junk.txt"])]⟩ (some a)
          = ["A-100.csv", "junk.txt"] := by
        simp only [get_data_reference_list, dataAssetPath, List.lookup]
        cases h : (a == "alpha") <;> simp [h, optNonemptyStr, List.lookup]
      rw [hlist]
      decide)

/-! ## C4: sorter validation fail-fast -/

/-- Helper `sorterOverrideState` only touches `_default_regex`. -/
theorem sorterOverrideState_cache (cfg : ConnectorConfig) (st : ConnectorState)
    (x : Option String) :
    (sorterOverrideState cfg st x).data_references_cache
      = st.data_references_cache := by
  unfold sorterOverrideState
  repeat first | rfl | split

/-- Claim C4. While sorters are configured, a request (of valid shape) whose
effective — asset-overridden — group names miss some sorter's bound field
name, or number fewer than the sorters, makes
`get_batch_definition_list_from_batch_request` fail with
`DataConnectorError` (the spec's `ConfigurationError` category) and leaves
the cache unpopulated, i.e. before any refresh or filesystem access;
otherwise the sorter validation passes silently. -/
theorem sorters_validation_fail_fast (cfg : ConnectorConfig)
    (st : ConnectorState) (req : BatchRequest)
    (hs : cfg.sorters ≠ [])
    (hvalid : validate_batch_request cfg req = true)
    (hcache : st.data_references_cache = none) :
    (((∃ s ∈ cfg.sorters,
          s.name ∉ (sorterOverrideState cfg st req.data_asset_name).default_regex.group_names) ∨
      (sorterOverrideState cfg st req.data_asset_name).default_regex.group_names.length
        < cfg.sorters.length) →
      ∃ stf, get_batch_definition_list_from_batch_request cfg st req
          = (.error .dataConnectorError, stf) ∧
        stf.data_references_cache = none) ∧
    ((∀ s ∈ cfg.sorters,
        s.name ∈ (sorterOverrideState cfg st req.data_asset_name).default_regex.group_names) →
      ¬ ((sorterOverrideState cfg st req.data_asset_name).default_regex.group_names.length
          < cfg.sorters.length) →
      (validate_sorters_configuration cfg st req.data_asset_name).1 = .ok ()) := by
  have hpos : 0 < cfg.sorters.length := List.length_pos.mpr hs
  have hany : (cfg.sorters.any (fun s =>
      !((sorterOverrideState cfg st req.data_asset_name).default_regex.group_names.contains
        s.name))) = true
      ↔ ∃ s ∈ cfg.sorters,
          s.name ∉ (sorterOverrideState cfg st req.data_asset_name).default_regex.group_names := by
    simp
  constructor
  · intro hbad
    simp only [get_batch_definition_list_from_batch_request, hvalid,
      Bool.not_true, Bool.false_eq_true, if_false]
    simp only [validate_sorters_configuration, if_pos hpos]
    by_cases ha : (cfg.sorters.any (fun s =>
        !((sorterOverrideState cfg st req.data_asset_name).default_regex.group_names.contains
          s.name))) = true
    · rw [if_pos ha]
      exact ⟨_, rfl, by rw [sorterOverrideState_cache]; exact hcache⟩
    · rw [if_neg ha]
      have hlt : (sorterOverrideState cfg st req.data_asset_name).default_regex.group_names.length
          < cfg.sorters.length := by
        rcases hbad with h | h
        · exact absurd (hany.mpr h) ha
        · exact h
      rw [if_pos hlt]
      exact ⟨_, rfl, by rw [sorterOverrideState_cache]; exact hcache⟩
  · intro hmem hlen
    simp only [validate_sorters_configuration, if_pos hpos]
    have ha : (cfg.sorters.any (fun s =>
        !((sorterOverrideState cfg st req.data_asset_name).default_regex.group_names.contains
          s.name))) = false := by
      rw [Bool.eq_false_iff]
      intro hcontra
      obtain ⟨s, hsme, hsn⟩ := hany.mp hcontra
      exact hsn (hmem s hsme)
    rw [if_neg (by rw [ha]; simp)]
    rw [if_neg hlen]

/-- Witness for C4: a connector configured with a sorter bound to field
`zzz`, absent from the group names, rejects a valid request with
`DataConnectorError` and leaves the cache unpopulated. -/
theorem sorters_validation_fail_fast_witness :
    ∃ stf, get_batch_definition_list_from_batch_request
        ⟨"conn", "env", "/base", [("alpha", ⟨none, none, none⟩)],
          [⟨"zzz", false, .lexicographic⟩], [("/base", ["A-100.csv"])]⟩
        ⟨⟨[.grp (fun c => c.isUpper), .lit "-", .grp (fun c => c.isDigit),
            .lit ".csv"], ["name", "id"]⟩, none⟩
        ⟨"env", "conn", some "alpha", none⟩
        = (.error .dataConnectorError, stf) ∧
      stf.data_references_cache = none :=
  (sorters_validation_fail_fast _ _ _ (by simp) (by rfl) (by rfl)).1
    (Or.inl ⟨⟨"zzz", false, .lexicographic⟩, by simp,
      by simp [sorterOverrideState, optNonempty, List.lookup]⟩)

/-! ## C5: serving a request mutates the stored default_regex (code bug)

`_validate_sorters_configuration` binds `regex_config = self._default_regex`
*without* the `copy.deepcopy` used at its three sibling call sites, then
assigns `regex_config["group_names"] = asset.group_names`.  Serving a request
for an asset with a `group_names` override therefore rewrites the connector's
stored defaults in place, contradicting the pure per-request merge the claim
(and the rest of the file) intends. -/

/-- Claim C5, which the code violates. With a sorter configured and asset `a`
overriding `group_names` to `["year", "month"]`, serving one valid request for
`a` permanently mutates the connector's `_default_regex["group_names"]` from
`["year"]` to `["year", "month"]`, so a subsequent default (non-overridden)
resolution sees the overridden names. -/
theorem default_regex_mutated_by_request :
    (((⟨⟨[.grp (fun c => c.isDigit)], ["year"]⟩, none⟩ : ConnectorState)).default_regex.group_names
        = ["year"]) ∧
    (get_batch_definition_list_from_batch_request
        ⟨"conn", "env", "/b", [("a", ⟨none, none, some ["year", "month"]⟩)],
          [⟨"year", false, .lexicographic⟩], [("/b", [])]⟩
        ⟨⟨[.grp (fun c => c.isDigit)], ["year"]⟩, none⟩
        ⟨"env", "conn", some "a", none⟩).2.default_regex.group_names
      = ["year", "month"] ∧
    (effectiveRegexConfig
        ⟨"conn", "env", "/b", [("a", ⟨none, none, some ["year", "month"]⟩)],
          [⟨"year", false, .lexicographic⟩], [("/b", [])]⟩
        (get_batch_definition_list_from_batch_request
          ⟨"conn", "env", "/b", [("a", ⟨none, none, some ["year", "month"]⟩)],
            [⟨"year", false, .lexicographic⟩], [("/b", [])]⟩
          ⟨⟨[.grp (fun c => c.isDigit)], ["year"]⟩, none⟩
          ⟨"env", "conn", some "a", none⟩).2
        none).group_names
      = ["year", "month"] :=
  ⟨rfl, rfl, rfl⟩

/-! ## C3: batch-spec path ignores the asset's base-directory override
(code bug)

`_get_data_reference_list` lists the *asset's* effective directory
(`base_directory` joined with the asset override) and stores child names
relative to it, but `_generate_batch_spec_parameters_from_batch_definition`
joins the reverse-mapped reference onto the connector's `self.base_directory`
only, so for an asset with a `base_directory` override the emitted path does
not point at the discovered file. -/

/-- Claim C3, which the code violates. Asset `alpha` overrides its base directory
to `sub`; the file `A-100.csv` is discovered under `/base/sub` and mapped to a
definition, yet `build_batch_spec` emits `/base/A-100.csv` instead of the
effective `/base/sub/A-100.csv`. -/
theorem batch_spec_path_ignores_asset_directory :
    get_data_reference_list
        ⟨"conn", "env", "/base", [("alpha", ⟨some "sub", none, none⟩)], [],
          [("/base/sub", ["A-100.csv"])]⟩ (some "alpha")
      = ["A-100.csv"] ∧
    map_data_reference_to_batch_definition_list
        ⟨"conn", "env", "/base", [("alpha", ⟨some "sub", none, none⟩)], [],
          [("/base/sub", ["A-100.csv"])]⟩
        ⟨⟨[.grp (fun c => c.isUpper), .lit "-", .grp (fun c => c.isDigit),
            .lit ".csv"], ["name", "id"]⟩, none⟩
        "A-100.csv" (some "alpha")
      = some [⟨"env", "conn", some "alpha", [("name", "A"), ("id", "100")]⟩] ∧
    build_batch_spec
        ⟨"conn", "env", "/base", [("alpha", ⟨some "sub", none, none⟩)], [],
          [("/base/sub", ["A-100.csv"])]⟩
        ⟨⟨[.grp (fun c => c.isUpper), .lit "-", .grp (fun c => c.isDigit),
            .lit ".csv"], ["name", "id"]⟩, none⟩
        ⟨"env", "conn", some "alpha", [("name", "A"), ("id", "100")]⟩
      = .ok ⟨"/base/A-100.csv"⟩ ∧
    joinPath
        (dataAssetPath
          ⟨"conn", "env", "/base", [("alpha", ⟨some "sub", none, none⟩)], [],
            [("/base/sub", ["A-100.csv"])]⟩ (some "alpha"))
        "A-100.csv"
      = "/base/sub/A-100.csv" ∧
    ("/base/A-100.csv" : String) ≠ "/base/sub/A-100.csv" :=
  ⟨by decide, by decide, by rfl, by decide, by decide⟩

/-! ## C2: multi-key stable-sort composition

General theory of the stable insertion sort used to embed the sorter passes:
permutation, sortedness, the filter characterisation of stability, uniqueness
of stable-sorted permutations, and the composition law "stable sort by `lt2`
then stable sort by `lt1` equals one stable sort by the lexicographic
comparator `lt1`-then-`lt2`". -/

theorem insB_perm {α : Type} (lt : α → α → Bool) (a : α) (l : List α) :
    (insB lt a l).Perm (a :: l) := by
  induction l with
  | nil => simp [insB]
  | cons b l ih =>
    simp only [insB]
    by_cases h : lt b a = true
    · rw [if_pos h]
      exact (ih.cons b).trans (List.Perm.swap a b l)
    · rw [if_neg h]

theorem isort_perm {α : Type} (lt : α → α → Bool) (l : List α) :
    (isort lt l).Perm l := by
  induction l with
  | nil => simp [isort]
  | cons a l ih => exact (insB_perm lt a (isort lt l)).trans (ih.cons a)

/-- The comparator is irreflexive. -/
theorem IsSwo.irrefl {α : Type} {lt : α → α → Bool} (h : IsSwo lt) (a : α) :
    lt a a = false := by
  cases hc : lt a a with
  | false => rfl
  | true => exact absurd (h.asymm a a hc) (by simp [hc])

theorem insB_pairwise {α : Type} {lt : α → α → Bool} (h : IsSwo lt) (a : α)
    {l : List α} (hl : l.Pairwise (fun x y => lt y x = false)) :
    (insB lt a l).Pairwise (fun x y => lt y x = false) := by
  induction l with
  | nil => simp [insB]
  | cons b l ih =>
    obtain ⟨hb, hl'⟩ := List.pairwise_cons.mp hl
    simp only [insB]
    by_cases hc : lt b a = true
    · rw [if_pos hc]
      refine List.pairwise_cons.mpr ⟨?_, ih hl'⟩
      intro y hy
      rcases List.mem_cons.mp (((insB_perm lt a l).mem_iff).mp hy) with hya | hyl
      · rw [hya]; exact h.asymm b a hc
      · exact hb y hyl
    · rw [if_neg hc]
      refine List.pairwise_cons.mpr ⟨?_, hl⟩
      intro y hy
      rcases List.mem_cons.mp hy with hyb | hyl
      · rw [hyb]; simpa using hc
      · exact h.negtrans y b a (hb y hyl) (by simpa using hc)

theorem isort_pairwise {α : Type} {lt : α → α → Bool} (h : IsSwo lt)
    (l : List α) : (isort lt l).Pairwise (fun x y => lt y x = false) := by
  induction l with
  | nil => simp [isort]
  | cons a l ih => exact insB_pairwise h a ih

theorem eqvB_symm {α : Type} (lt : α → α → Bool) (a b : α) :
    eqvB lt a b = eqvB lt b a := by
  simp [eqvB, Bool.and_comm]

/-- Equivalent elements stay equivalent across a third element. -/
theorem eqvB_trans {α : Type} {lt : α → α → Bool} (h : IsSwo lt) {a b c : α}
    (h1 : eqvB lt a b = true) (h2 : eqvB lt a c = true) : eqvB lt c b = true := by
  simp only [eqvB, Bool.and_eq_true, Bool.not_eq_true'] at h1 h2 ⊢
  exact ⟨h.negtrans c a b h2.2 h1.1, h.negtrans b a c h1.2 h2.1⟩

theorem insB_filter {α : Type} {lt : α → α → Bool} (h : IsSwo lt) (a b : α)
    (l : List α) :
    (insB lt b l).filter (eqvB lt a)
      = if eqvB lt a b = true then b :: l.filter (eqvB lt a)
        else l.filter (eqvB lt a) := by
  induction l with
  | nil =>
    by_cases hab : eqvB lt a b = true <;> simp [insB, List.filter_cons, hab]
  | cons c l ih =>
    simp only [insB]
    by_cases hc : lt c b = true
    · rw [if_pos hc]
      by_cases hab : eqvB lt a b = true
      · have hac : eqvB lt a c = false := by
          cases hx : eqvB lt a c with
          | false => rfl
          | true =>
            have := eqvB_trans h hab hx
            simp only [eqvB, Bool.and_eq_true, Bool.not_eq_true'] at this
            rw [this.1] at hc
            exact absurd hc (by simp)
        simp [List.filter_cons, hab, hac, ih]
      · simp [List.filter_cons, hab, ih]
    · rw [if_neg hc]
      by_cases hab : eqvB lt a b = true <;> simp [List.filter_cons, hab]

theorem isort_filter {α : Type} {lt : α → α → Bool} (h : IsSwo lt) (a : α)
    (l : List α) :
    (isort lt l).filter (eqvB lt a) = l.filter (eqvB lt a) := by
  induction l with
  | nil => simp [isort]
  | cons b l ih =>
    simp only [isort]
    rw [insB_filter h a b (isort lt l), ih]
    by_cases hab : eqvB lt a b = true <;> simp [List.filter, hab]

/-- A permutation that is sorted and class-stable in the same way is unique. -/
theorem sorted_stable_unique {α : Type} {lt : α → α → Bool} (h : IsSwo lt) :
    ∀ (l₁ l₂ : List α), l₁.Perm l₂ →
      l₁.Pairwise (fun x y => lt y x = false) →
      l₂.Pairwise (fun x y => lt y x = false) →
      (∀ a, l₁.filter (eqvB lt a) = l₂.filter (eqvB lt a)) →
      l₁ = l₂ := by
  intro l₁
  induction l₁ with
  | nil =>
    intro l₂ hp _ _ _
    exact (hp.nil_eq).symm ▸ rfl
  | cons a t₁ ih =>
    intro l₂ hp hs₁ hs₂ hf
    cases l₂ with
    | nil => exact absurd hp.symm.nil_eq (by simp)
    | cons b t₂ =>
      have haa : eqvB lt a a = true := by simp [eqvB, h.irrefl a]
      have hab : a = b := by
        by_cases he : eqvB lt a b = true
        · have := hf a
          rw [List.filter_cons_of_pos (by simpa using haa),
            List.filter_cons_of_pos (by simpa using (eqvB_symm lt a b ▸ he))] at this
          · exact (List.cons.injEq _ _ _ _ ▸ this).1
        · exfalso
          have hne : a ≠ b := fun hcontra => he (hcontra ▸ haa)
          have hat2 : a ∈ t₂ := by
            have : a ∈ b :: t₂ := hp.mem_iff.mp (by simp)
            rcases List.mem_cons.mp this with h' | h'
            · exact absurd h' hne
            · exact h'
          have hbt1 : b ∈ t₁ := by
            have : b ∈ a :: t₁ := hp.symm.mem_iff.mp (by simp)
            rcases List.mem_cons.mp this with h' | h'
            · exact absurd h'.symm hne
            · exact h'
          have h1 : lt b a = false := (List.pairwise_cons.mp hs₁).1 b hbt1
          have h2 : lt a b = false := (List.pairwise_cons.mp hs₂).1 a hat2
          exact he (by simp [eqvB, h1, h2])
      subst hab
      have ht : t₁ = t₂ := by
        apply ih t₂ (hp.cons_inv) (List.pairwise_cons.mp hs₁).2
          (List.pairwise_cons.mp hs₂).2
        intro c
        have := hf c
        by_cases hc : eqvB lt c a = true
        · rw [List.filter_cons_of_pos (by simpa using hc),
            List.filter_cons_of_pos (by simpa using hc)] at this
          exact (List.cons.injEq _ _ _ _ ▸ this).2
        · rwa [List.filter_cons_of_neg (by simpa using hc),
            List.filter_cons_of_neg (by simpa using hc)] at this
      rw [ht]

/-- Upgrade a sortedness invariant with a per-equivalence-class invariant. -/
theorem pairwise_upgrade {α : Type} (A B : α → α → Prop) (eqv : α → α → Bool)
    (hrefl : ∀ a, eqv a a = true) :
    ∀ l : List α, l.Pairwise A → (∀ a, (l.filter (eqv a)).Pairwise B) →
      l.Pairwise (fun x y => A x y ∧ (eqv x y = true → B x y)) := by
  intro l
  induction l with
  | nil => intro _ _; exact List.Pairwise.nil
  | cons x t ih =>
    intro hA hB
    refine List.pairwise_cons.mpr ⟨?_, ?_⟩
    · intro y hy
      refine ⟨(List.pairwise_cons.mp hA).1 y hy, fun he => ?_⟩
      have hfx := hB x
      rw [List.filter_cons_of_pos (by simpa using hrefl x)] at hfx
      exact (List.pairwise_cons.mp hfx).1 y
        (List.mem_filter.mpr ⟨hy, by simpa using he⟩)
    · refine ih (List.pairwise_cons.mp hA).2 ?_
      intro a
      have hfa := hB a
      by_cases hax : eqv a x = true
      · rw [List.filter_cons_of_pos (by simpa using hax)] at hfa
        exact (List.pairwise_cons.mp hfa).2
      · rwa [List.filter_cons_of_neg (by simpa using hax)] at hfa

/-- The lexicographic composition of two strict comparators: primary `lt1`,
with `lt2` deciding only within `lt1`-equivalence classes. -/
def lexB {α : Type} (lt1 lt2 : α → α → Bool) (x y : α) : Bool :=
  lt1 x y || (eqvB lt1 x y && lt2 x y)

theorem lexB_eq_false_iff {α : Type} (lt1 lt2 : α → α → Bool) (a b : α) :
    lexB lt1 lt2 a b = false
      ↔ (lt1 a b = false ∧ (eqvB lt1 a b = true → lt2 a b = false)) := by
  cases h1 : lt1 a b <;> cases h2 : lt1 b a <;> cases h3 : lt2 a b <;>
    simp [lexB, eqvB, h1, h2, h3]

theorem eqvB_lexB {α : Type} (lt1 lt2 : α → α → Bool) (a : α) :
    eqvB (lexB lt1 lt2) a = fun b => eqvB lt1 a b && eqvB lt2 a b := by
  funext b
  cases h1 : lt1 a b <;> cases h2 : lt1 b a <;> cases h3 : lt2 a b <;>
    cases h4 : lt2 b a <;> simp [eqvB, lexB, h1, h2, h3, h4]

theorem lexB_swo {α : Type} {lt1 lt2 : α → α → Bool} (h1 : IsSwo lt1)
    (h2 : IsSwo lt2) : IsSwo (lexB lt1 lt2) := by
  constructor
  · intro a b hab
    have hcases : lt1 a b = true ∨ (eqvB lt1 a b = true ∧ lt2 a b = true) := by
      simpa [lexB, Bool.or_eq_true, Bool.and_eq_true] using hab
    rw [lexB_eq_false_iff]
    constructor
    · rcases hcases with hx | ⟨he, _⟩
      · exact h1.asymm a b hx
      · simp only [eqvB, Bool.and_eq_true, Bool.not_eq_true'] at he
        exact he.2
    · intro hba
      rcases hcases with hx | ⟨_, hl2⟩
      · exfalso
        simp only [eqvB, Bool.and_eq_true, Bool.not_eq_true'] at hba
        rw [hba.2] at hx
        exact absurd hx (by simp)
      · exact h2.asymm a b hl2
  · intro a b c hab hbc
    rw [lexB_eq_false_iff] at hab hbc ⊢
    refine ⟨h1.negtrans a b c hab.1 hbc.1, ?_⟩
    intro he
    have heparts : lt1 a c = false ∧ lt1 c a = false := by
      simpa [eqvB, Bool.and_eq_true, Bool.not_eq_true'] using he
    have hba : lt1 b a = false := h1.negtrans b c a hbc.1 heparts.2
    have hcb : lt1 c b = false := h1.negtrans c a b heparts.2 hab.1
    have he1 : eqvB lt1 a b = true := by simp [eqvB, hab.1, hba]
    have he2 : eqvB lt1 b c = true := by simp [eqvB, hbc.1, hcb]
    exact h2.negtrans a b c (hab.2 he1) (hbc.2 he2)

/-- Composition law: a stable pass by `lt2` refined by a stable pass by `lt1`
is one stable pass by the lexicographic comparator `lt1`-then-`lt2`. -/
theorem isort_isort {α : Type} {lt1 lt2 : α → α → Bool} (h1 : IsSwo lt1)
    (h2 : IsSwo lt2) (l : List α) :
    isort lt1 (isort lt2 l) = isort (lexB lt1 lt2) l := by
  have h12 : IsSwo (lexB lt1 lt2) := lexB_swo h1 h2
  apply sorted_stable_unique h12
  · exact ((isort_perm lt1 _).trans (isort_perm lt2 l)).trans
      (isort_perm (lexB lt1 lt2) l).symm
  · have hcls : ∀ a,
        ((isort lt1 (isort lt2 l)).filter (eqvB lt1 a)).Pairwise
          (fun x y => lt2 y x = false) := by
      intro a
      rw [isort_filter h1 a _]
      exact (isort_pairwise h2 l).filter _
    have hP := pairwise_upgrade (fun x y => lt1 y x = false)
      (fun x y => lt2 y x = false) (eqvB lt1)
      (fun a => by simp [eqvB, h1.irrefl a]) _
      (isort_pairwise h1 (isort lt2 l)) hcls
    apply hP.imp
    intro x y hxy
    rw [lexB_eq_false_iff]
    exact ⟨hxy.1, fun he => hxy.2 (by rwa [eqvB_symm] at he)⟩
  · exact isort_pairwise h12 l
  · intro a
    rw [isort_filter h12 a l, eqvB_lexB]
    calc ((isort lt1 (isort lt2 l)).filter fun b => eqvB lt1 a b && eqvB lt2 a b)
        = ((isort lt1 (isort lt2 l)).filter fun b => eqvB lt2 a b && eqvB lt1 a b) := by
          congr 1
          funext b
          rw [Bool.and_comm]
      _ = ((isort lt1 (isort lt2 l)).filter (eqvB lt1 a)).filter (eqvB lt2 a) := by
          rw [List.filter_filter]
      _ = ((isort lt2 l).filter (eqvB lt1 a)).filter (eqvB lt2 a) := by
          rw [isort_filter h1 a _]
      _ = ((isort lt2 l).filter fun b => eqvB lt2 a b && eqvB lt1 a b) := by
          rw [List.filter_filter]
      _ = ((isort lt2 l).filter fun b => eqvB lt1 a b && eqvB lt2 a b) := by
          congr 1
          funext b
          rw [Bool.and_comm]
      _ = ((isort lt2 l).filter (eqvB lt2 a)).filter (eqvB lt1 a) := by
          rw [List.filter_filter]
      _ = (l.filter (eqvB lt2 a)).filter (eqvB lt1 a) := by
          rw [isort_filter h2 a l]
      _ = (l.filter fun b => eqvB lt1 a b && eqvB lt2 a b) := by
          rw [List.filter_filter]

/-- The lexicographic comparator induced by a declared sorter sequence: the
first-declared sorter compares first; later sorters break its ties. -/
def lexLtChain : List Sorter → BatchDefinition → BatchDefinition → Bool
  | [] => fun _ _ => false
  | s :: rest => lexB (sorterLt s) (lexLtChain rest)

theorem optLt_swo {κ : Type} [LinearOrder κ] : IsSwo (optLt (κ := κ)) := by
  constructor
  · intro a b hab
    cases a with
    | none =>
      cases b with
      | none => simp [optLt] at hab
      | some b => simp [optLt]
    | some a =>
      cases b with
      | none => simp [optLt] at hab
      | some b =>
        simp only [optLt, decide_eq_true_eq] at hab
        simp only [optLt, decide_eq_false_iff_not]
        exact lt_asymm hab
  · intro a b c hab hbc
    cases a with
    | none =>
      cases c with
      | none => simp [optLt]
      | some c =>
        cases b with
        | none => simp [optLt] at hbc
        | some b => simp [optLt] at hab
    | some a =>
      cases c with
      | none => simp [optLt]
      | some c =>
        cases b with
        | none => simp [optLt] at hbc
        | some b =>
          simp only [optLt, decide_eq_false_iff_not] at hab hbc ⊢
          intro hac
          exact absurd hac
            (not_lt.mpr (le_trans (not_lt.mp hbc) (not_lt.mp hab)))

theorem IsSwo.swap {α : Type} {lt : α → α → Bool} (h : IsSwo lt) :
    IsSwo (fun a b => lt b a) :=
  ⟨fun a b hab => h.asymm b a hab,
   fun a b c hab hbc => h.negtrans c b a hbc hab⟩

theorem IsSwo.comap {α β : Type} {lt : α → α → Bool} (h : IsSwo lt)
    (f : β → α) : IsSwo (fun x y => lt (f x) (f y)) :=
  ⟨fun a b => h.asymm (f a) (f b), fun a b c => h.negtrans (f a) (f b) (f c)⟩

theorem sorterLtAsc_swo (s : Sorter) : IsSwo (sorterLtAsc s) := by
  cases hk : s.kind
  · have he : sorterLtAsc s
        = fun x y => optLt (sorterKeyLex s x) (sorterKeyLex s y) := by
      funext x y; simp [sorterLtAsc, hk]
    rw [he]
    exact optLt_swo.comap _
  · have he : sorterLtAsc s
        = fun x y => optLt (sorterKeyNum s x) (sorterKeyNum s y) := by
      funext x y; simp [sorterLtAsc, hk]
    rw [he]
    exact optLt_swo.comap _

theorem sorterLt_swo (s : Sorter) : IsSwo (sorterLt s) := by
  cases hd : s.descending
  · have he : sorterLt s = fun x y => sorterLtAsc s x y := by
      funext x y; simp [sorterLt, hd]
    rw [he]
    exact (sorterLtAsc_swo s).comap id
  · have he : sorterLt s = fun x y => sorterLtAsc s y x := by
      funext x y; simp [sorterLt, hd]
    rw [he]
    exact (sorterLtAsc_swo s).swap

theorem lexLtChain_swo (ss : List Sorter) : IsSwo (lexLtChain ss) := by
  induction ss with
  | nil =>
    exact ⟨fun a b hF => by simp [lexLtChain] at hF,
           fun a b c _ _ => by simp [lexLtChain]⟩
  | cons s ss ih => exact lexB_swo (sorterLt_swo s) ih

theorem isort_false {α : Type} (l : List α) :
    isort (fun _ _ => false) l = l := by
  induction l with
  | nil => rfl
  | cons a l ih =>
    simp only [isort, ih]
    cases l <;> simp [insB]

theorem sort_batch_definition_list_cons (s : Sorter) (ss : List Sorter)
    (l : List BatchDefinition) :
    sort_batch_definition_list (s :: ss) l
      = isort (sorterLt s) (sort_batch_definition_list ss l) := by
  simp [sort_batch_definition_list, get_sorted_batch_definitions,
    List.reverse_cons, List.foldl_append]

/-- Claim C2. `_sort_batch_definition_list` — which walks the declared sorters
in *reverse* order, each pass a stable sort on that sorter's field — equals,
for every input list and every declared sorter sequence, a single stable sort
under the lexicographic comparator in which the first-declared sorter has
highest priority and each later sorter acts only as a tie-break within the
equivalence classes of the earlier ones (so `[A desc, B asc]` orders
primarily by `A` descending, refining equal-`A` groups by `B` ascending,
preserving input order on full ties). -/
theorem sort_batch_definition_list_eq_lex (sorters : List Sorter)
    (l : List BatchDefinition) :
    sort_batch_definition_list sorters l = isort (lexLtChain sorters) l := by
  induction sorters with
  | nil =>
    show l = isort (lexLtChain []) l
    rw [show lexLtChain [] = fun _ _ => false from rfl, isort_false]
  | cons s ss ih =>
    rw [sort_batch_definition_list_cons, ih,
      isort_isort (sorterLt_swo s) (lexLtChain_swo ss)]
    rfl

/-! ## C6: unmatched-reference diagnostics -/

/-- Folding list appends equals a flat map. -/
theorem foldl_append_eq_flatMap {α β : Type} (f : α → List β) (l : List α)
    (acc : List β) :
    l.foldl (fun a p => a ++ f p) acc = acc ++ l.flatMap f := by
  induction l generalizing acc with
  | nil => simp
  | cons x xs ih => simp [ih]

/-- Method `_validate_sorters_configuration` never touches the cache. -/
theorem validate_sorters_snd_cache (cfg : ConnectorConfig) (st : ConnectorState)
    (x : Option String) :
    (validate_sorters_configuration cfg st x).2.data_references_cache
      = st.data_references_cache := by
  unfold validate_sorters_configuration
  by_cases h : 0 < cfg.sorters.length
  · simp only [if_pos h]
    split
    · exact sorterOverrideState_cache cfg st x
    · split
      · exact sorterOverrideState_cache cfg st x
      · exact sorterOverrideState_cache cfg st x
  · simp [if_neg h]

/-- A refresh does not change the regex configuration the mapper reads. -/
theorem map_ref_refresh_eq (cfg : ConnectorConfig) (st : ConnectorState)
    (r : String) (d : Option String) :
    map_data_reference_to_batch_definition_list cfg
      (refresh_data_references_cache cfg st) r d
      = map_data_reference_to_batch_definition_list cfg st r d := rfl

/-- A successful forward mapping is a non-empty (singleton) list containing
its own head. -/
theorem map_ref_headI_mem {cfg : ConnectorConfig} {st : ConnectorState}
    {r : String} {d : Option String} {l : List BatchDefinition}
    (h : map_data_reference_to_batch_definition_list cfg st r d = some l) :
    l.headI ∈ l := by
  simp only [map_data_reference_to_batch_definition_list,
    map_data_reference_string_to_batch_definition_list_using_regex] at h
  rcases hm : matchToks (effectiveRegexConfig cfg st d).pattern r.data with _ | vs
  · rw [hm] at h; exact absurd h (by simp)
  · rw [hm] at h
    obtain rfl : _ = l := Option.some.injEq _ _ ▸ h
    simp

/-- The partition query only selects from its input. -/
theorem select_from_partition_request_subset (pq : PartitionQuery)
    (l : List BatchDefinition) {bd : BatchDefinition}
    (h : bd ∈ select_from_partition_request pq l) : bd ∈ l := by
  simp only [select_from_partition_request] at h
  have hsub : ∀ l1 : List BatchDefinition,
      (match pq.partition_identifiers with
        | none => l
        | some crit =>
          l.filter (fun bd =>
            crit.all (fun kv => bd.partition_definition.lookup kv.1 == some kv.2)))
        = l1 → ∀ x ∈ l1, x ∈ l := by
    intro l1 heq x hx
    cases hpi : pq.partition_identifiers with
    | none =>
      rw [hpi] at heq
      exact (show l = l1 from heq).symm ▸ hx
    | some crit =>
      rw [hpi] at heq
      have heq' : List.filter
          (fun bd => crit.all
            (fun kv => bd.partition_definition.lookup kv.1 == some kv.2)) l
          = l1 := heq
      rw [← heq'] at hx
      exact (List.mem_filter.mp hx).1
  cases hix : pq.index with
  | none =>
    rw [hix] at h
    exact hsub _ rfl bd h
  | some i =>
    rw [hix] at h
    simp only [Option.mem_toList, Option.mem_def] at h
    exact hsub _ rfl bd (List.get?_mem h)

/-- Every sorter chain output is a permutation of its input. -/
theorem sort_batch_definition_list_perm (ss : List Sorter)
    (l : List BatchDefinition) : (sort_batch_definition_list ss l).Perm l := by
  induction ss generalizing l with
  | nil => exact List.Perm.refl l
  | cons s ss ih =>
    rw [sort_batch_definition_list_cons]
    exact (isort_perm (sorterLt s) _).trans (ih l)

/-- Claim C6. After a cache refresh, a discovered reference appears among the
unmatched references exactly when its forward mapping under its asset failed;
and every batch definition any successful request returns originates from a
reference whose forward mapping succeeded — so no definition is ever served
for an unmatched reference, and matched references never show up as
unmatched. -/
theorem unmatched_references_diagnostics (cfg : ConnectorConfig)
    (st : ConnectorState)
    (hnodA : (cfg.assets.map Prod.fst).Nodup)
    (hnodR : ∀ a, (get_data_reference_list cfg (some a)).Nodup) :
    (∀ r, (∃ ul, get_unmatched_data_references
            (refresh_data_references_cache cfg st) = .ok ul ∧ r ∈ ul)
       ↔ ∃ a ∈ get_available_data_asset_names cfg,
           r ∈ get_data_reference_list cfg (some a) ∧
           map_data_reference_to_batch_definition_list cfg st r (some a)
             = none) ∧
    (∀ req res stf, st.data_references_cache = none →
      get_batch_definition_list_from_batch_request cfg st req = (.ok res, stf) →
      ∀ bd ∈ res, ∃ a r l', a ∈ get_available_data_asset_names cfg ∧
        r ∈ get_data_reference_list cfg (some a) ∧
        map_data_reference_to_batch_definition_list cfg stf r (some a)
          = some l' ∧ bd ∈ l') := by
  constructor
  · intro r
    rw [show get_unmatched_data_references (refresh_data_references_cache cfg st)
        = .ok (((get_available_data_asset_names cfg).map
            (fun an => (an, refreshSubCache cfg st an))).foldl
          (fun acc p =>
            acc ++ p.2.filterMap (fun q => if q.2.isNone then some q.1 else none))
          []) from by
        simp only [get_unmatched_data_references, refresh_cache_eq cfg st hnodA]]
    rw [foldl_append_eq_flatMap]
    constructor
    · rintro ⟨ul, hul, hr⟩
      obtain rfl : _ = ul := Except.ok.injEq _ _ ▸ hul
      simp only [List.nil_append, List.mem_flatMap, List.mem_map,
        List.mem_filterMap] at hr
      obtain ⟨p, ⟨an, han, rfl⟩, ⟨⟨r', v⟩, hmem, hif⟩⟩ := hr
      have hv : v.isNone = true ∧ r' = r := by
        by_cases hn : v.isNone = true
        · refine ⟨hn, ?_⟩
          rw [if_pos hn] at hif
          simpa using hif
        · rw [if_neg hn] at hif
          exact absurd hif (by simp)
      rw [refreshSubCache_eq cfg st an (hnodR an)] at hmem
      simp only [List.mem_map] at hmem
      obtain ⟨r'', hr'', heq⟩ := hmem
      obtain ⟨rfl, rfl⟩ : r'' = r' ∧
          map_data_reference_to_batch_definition_list cfg st r'' (some an) = v := by
        exact ⟨(Prod.mk.injEq _ _ _ _ ▸ heq).1, (Prod.mk.injEq _ _ _ _ ▸ heq).2⟩
      exact ⟨an, han, hv.2 ▸ hr'',
        by rw [hv.2] at *; simpa [Option.isNone_iff_eq_none] using hv.1⟩
    · rintro ⟨a, ha, hr, hnone⟩
      refine ⟨_, rfl, ?_⟩
      simp only [List.nil_append, List.mem_flatMap, List.mem_map]
      refine ⟨(a, refreshSubCache cfg st a), ⟨a, ha, rfl⟩, ?_⟩
      rw [refreshSubCache_eq cfg st a (hnodR a)]
      simp only [List.mem_filterMap, List.mem_map]
      exact ⟨(r, map_data_reference_to_batch_definition_list cfg st r (some a)),
        ⟨r, hr, rfl⟩, by simp [hnone]⟩
  · intro req res stf hcache heq bd hbd
    by_cases hv : validate_batch_request cfg req = true
    · simp only [get_batch_definition_list_from_batch_request, hv,
        Bool.not_true, Bool.false_eq_true, if_false] at heq
      rcases hvs : validate_sorters_configuration cfg st req.data_asset_name with
        ⟨ev, st'⟩
      rw [hvs] at heq
      cases ev with
      | error e => exact absurd heq (by simp)
      | ok u =>
        have hst' : st'.data_references_cache = none := by
          have := validate_sorters_snd_cache cfg st req.data_asset_name
          rw [hvs] at this
          exact this.trans hcache
        simp only [hst', Option.isNone_none, if_pos, if_true] at heq
        obtain ⟨hres, hstf⟩ : _ = res ∧ refresh_data_references_cache cfg st' = stf := by
          have h1 := (Prod.mk.injEq _ _ _ _ ▸ heq).1
          have h2 := (Prod.mk.injEq _ _ _ _ ▸ heq).2
          exact ⟨Except.ok.injEq _ _ ▸ h1, h2⟩
        subst hstf
        rw [← hres] at hbd
        -- peel the sorter pass
        have hbd2 : bd ∈ (if 0 < cfg.sorters.length then
            sort_batch_definition_list cfg.sorters else id)
            (match req.partition_request with
              | none => ((collectCandidates
                  ((refresh_data_references_cache cfg st').data_references_cache.getD [])).filter
                  (fun b => batch_definition_matches_batch_request b req))
              | some pq => select_from_partition_request pq
                  ((collectCandidates
                    ((refresh_data_references_cache cfg st').data_references_cache.getD [])).filter
                    (fun b => batch_definition_matches_batch_request b req))) := by
          by_cases hs : 0 < cfg.sorters.length <;> simp only [hs, if_pos, if_true,
            Bool.false_eq_true, if_false, id] <;> simpa [hs] using hbd
        have hbd3 : bd ∈ (match req.partition_request with
            | none => ((collectCandidates
                ((refresh_data_references_cache cfg st').data_references_cache.getD [])).filter
                (fun b => batch_definition_matches_batch_request b req))
            | some pq => select_from_partition_request pq
                ((collectCandidates
                  ((refresh_data_references_cache cfg st').data_references_cache.getD [])).filter
                  (fun b => batch_definition_matches_batch_request b req))) := by
          by_cases hs : 0 < cfg.sorters.length
          · rw [if_pos hs] at hbd2
            exact ((sort_batch_definition_list_perm cfg.sorters _).mem_iff).mp hbd2
          · rw [if_neg hs] at hbd2
            exact hbd2
        have hbd4 : bd ∈ (collectCandidates
            ((refresh_data_references_cache cfg st').data_references_cache.getD [])).filter
            (fun b => batch_definition_matches_batch_request b req) := by
          cases hpr : req.partition_request with
          | none => rw [hpr] at hbd3; exact hbd3
          | some pq =>
            rw [hpr] at hbd3
            exact select_from_partition_request_subset pq _ hbd3
        have hbd5 : bd ∈ collectCandidates
            ((refresh_data_references_cache cfg st').data_references_cache.getD []) :=
          (List.mem_filter.mp hbd4).1
        rw [refresh_cache_eq cfg st' hnodA] at hbd5
        simp only [Option.getD_some, collectCandidates, List.mem_flatMap,
          List.mem_map, List.mem_filterMap] at hbd5
        obtain ⟨p, ⟨an, han, rfl⟩, ⟨⟨r, v⟩, hmem, hv2⟩⟩ := hbd5
        rw [refreshSubCache_eq cfg st' an (hnodR an)] at hmem
        simp only [List.mem_map] at hmem
        obtain ⟨r', hr', heq2⟩ := hmem
        have hr'r : r' = r := (Prod.mk.injEq _ _ _ _ ▸ heq2).1
        have hvmap : map_data_reference_to_batch_definition_list cfg st' r' (some an)
            = v := (Prod.mk.injEq _ _ _ _ ▸ heq2).2
        simp only [Option.map_eq_some'] at hv2
        obtain ⟨l', hl', hbdh⟩ := hv2
        refine ⟨an, r', l', han, hr', ?_, ?_⟩
        · rw [map_ref_refresh_eq]
          rw [hvmap, hl']
        · rw [← hbdh]
          exact map_ref_headI_mem (by rw [hvmap, hl'] :
            map_data_reference_to_batch_definition_list cfg st' r' (some an) = some l')
    · simp only [get_batch_definition_list_from_batch_request, hv] at heq
      exact absurd heq (by simp [hv])

/-- Witness for C6: `junk.txt` fails the pattern and is reported among the
unmatched references of the refreshed connector. -/
theorem unmatched_references_diagnostics_witness :
    ∃ ul, get_unmatched_data_references
        (refresh_data_references_cache
          ⟨"conn", "env", "/base", [("alpha", ⟨none, none, none⟩)], [],
            [("/base", ["A-100.csv", "junk.txt"])]⟩
          ⟨⟨[.grp (fun c => c.isUpper), .lit "-", .grp (fun c => c.isDigit),
              .lit ".csv"], ["name", "id"]⟩, none⟩) = .ok ul ∧
      "junk.txt" ∈ ul := by
  have h := unmatched_references_diagnostics
    ⟨"conn", "env", "/base", [("alpha", ⟨none, none, none⟩)], [],
      [("/base", ["A-100.csv", "junk.txt"])]⟩
    ⟨⟨[.grp (fun c => c.isUpper), .lit "-", .grp (fun c => c.isDigit),
        .lit ".csv"], ["name", "id"]⟩, none⟩
    (by decide)
    (by
      intro a
      have hlist : get_data_reference_list
          ⟨"conn", "env", "/base", [("alpha", ⟨none, none, none⟩)], [],
            [("/base", ["A-100.csv", "junk.txt"])]⟩ (some a)
          = ["A-100.csv", "junk.txt"] := by
        simp only [get_data_reference_list, dataAssetPath, List.lookup]
        cases hx : (a == "alpha") <;> simp [hx, optNonemptyStr, List.lookup]
      rw [hlist]
      decide)
  exact (h.1 "junk.txt").mpr ⟨"alpha", by decide, by decide, by rfl⟩

/-! ## C9 / C10: `ExpectColumnValuesToBeDecreasing`
(`expect_column_values_to_be_decreasing.py`) -/

/-- A metric value: a numeric count, an index list, or a value list. -/
inductive Mv where
  | num (q : ℚ)
  | idxList (l : List Nat)
  | valList (l : List ℚ)
deriving DecidableEq

/-- Numeric view of an optional metric value. -/
def mvNum : Option Mv → Option ℚ
  | some (.num q) => some q
  | _ => none

/-- The fields of `_format_map_output` that `_validates` populates.
Modelled from the spec: result formatting is an external collaborator (§1),
so the formatter is modelled as verbatim assembly of the keyword arguments
`_validates` passes. -/
structure ValidationResult where
  success : Option Bool
  element_count : Option Mv
  nonnull_count : Option Mv
  unexpected_count : Option ℚ
  unexpected_list : Option Mv
  unexpected_index_list : Option Mv
deriving DecidableEq

/-- Method `ExpectColumnValuesToBeDecreasing._validates` (source lines 62–102):
`extract_metrics` is modelled as association-list lookup of the metric keys;
each keyword argument of `_format_map_output` carries exactly the metric
lookup the source writes, including the `column_values.increasing`
`unexpected_index_list` key. -/
def decreasing_validates (metric_vals : List (String × Mv)) (mostly : ℚ) :
    ValidationResult :=
  { success :=
      match mvNum (metric_vals.lookup "column_values.decreasing.count"),
        mvNum (metric_vals.lookup "column_values.nonnull.count") with
      | some d, some n => some (decide (d / n ≥ mostly))
      | _, _ => none
    element_count := metric_vals.lookup "column_values.count"
    nonnull_count := metric_vals.lookup "column_values.nonnull.count"
    unexpected_count :=
      match mvNum (metric_vals.lookup "column_values.nonnull.count"),
        mvNum (metric_vals.lookup "column_values.decreasing.count") with
      | some n, some d => some (n - d)
      | _, _ => none
    unexpected_list := metric_vals.lookup "column_values.decreasing.unexpected_values"
    unexpected_index_list :=
      metric_vals.lookup "column_values.increasing.unexpected_index_list" }

/-- Claim C9. For every metrics mapping binding both index-list keys to
distinct values, the formatted result's `unexpected_index_list` is the value
bound to `column_values.increasing.unexpected_index_list` — not the one bound
to `column_values.decreasing.unexpected_index_list` — while `success` and
`unexpected_count` are computed from the decreasing/nonnull counts and
`unexpected_list` from the decreasing unexpected-values key. -/
theorem decreasing_validates_uses_increasing_index_list
    (m : List (String × Mv)) (mostly : ℚ) (vInc vDec : Mv)
    (hInc : m.lookup "column_values.increasing.unexpected_index_list" = some vInc)
    (_hDec : m.lookup "column_values.decreasing.unexpected_index_list" = some vDec)
    (hne : vInc ≠ vDec) :
    (decreasing_validates m mostly).unexpected_index_list = some vInc ∧
    (decreasing_validates m mostly).unexpected_index_list ≠ some vDec ∧
    (∀ d n, mvNum (m.lookup "column_values.decreasing.count") = some d →
      mvNum (m.lookup "column_values.nonnull.count") = some n →
      (decreasing_validates m mostly).success = some (decide (d / n ≥ mostly)) ∧
      (decreasing_validates m mostly).unexpected_count = some (n - d)) ∧
    (decreasing_validates m mostly).unexpected_list
      = m.lookup "column_values.decreasing.unexpected_values" := by
  refine ⟨by simp [decreasing_validates, hInc], ?_, ?_, by simp [decreasing_validates]⟩
  · simp only [decreasing_validates, hInc]
    intro hcontra
    exact hne (by simpa using hcontra)
  · intro d n hd hn
    constructor
    · simp only [decreasing_validates, hd, hn]
    · simp only [decreasing_validates, hd, hn]

/-- Witness for C9: with the increasing key bound to `[7]` and the decreasing
key bound to `[9]`, the result reports `[7]`. -/
theorem decreasing_validates_uses_increasing_index_list_witness :
    (decreasing_validates
        [("column_values.decreasing.count", .num 2),
         ("column_values.nonnull.count", .num 3),
         ("column_values.decreasing.unexpected_values", .valList [5]),
         ("column_values.increasing.unexpected_index_list", .idxList [7]),
         ("column_values.decreasing.unexpected_index_list", .idxList [9])]
        1).unexpected_index_list = some (.idxList [7]) ∧
    (decreasing_validates
        [("column_values.decreasing.count", .num 2),
         ("column_values.nonnull.count", .num 3),
         ("column_values.decreasing.unexpected_values", .valList [5]),
         ("column_values.increasing.unexpected_index_list", .idxList [7]),
         ("column_values.decreasing.unexpected_index_list", .idxList [9])]
        1).unexpected_index_list ≠ some (.idxList [9]) := by
  have h := decreasing_validates_uses_increasing_index_list
    [("column_values.decreasing.count", .num 2),
     ("column_values.nonnull.count", .num 3),
     ("column_values.decreasing.unexpected_values", .valList [5]),
     ("column_values.increasing.unexpected_index_list", .idxList [7]),
     ("column_values.decreasing.unexpected_index_list", .idxList [9])]
    1 (.idxList [7]) (.idxList [9]) (by rfl) (by rfl) (by decide)
  exact ⟨h.1, h.2.1⟩

/-- Pandas `series.diff()`: first difference of a pandas series, `None` standing for
null/NaN; the first position (and any position after a null) is null. -/
def diffAux (prev : Option ℚ) : List (Option ℚ) → List (Option ℚ)
  | [] => []
  | y :: ys =>
    (match prev, y with
     | some a, some b => some (b - a)
     | _, _ => none) :: diffAux y ys

def seriesDiff : List (Option ℚ) → List (Option ℚ)
  | [] => []
  | x :: xs => none :: diffAux x xs

/-- Metric `_pandas_column_values_decreasing` (source lines 42–60): take the first
difference, overwrite nulls with `-1` ("the first element ... gets a bye and
is always treated as True"), then compare `< 0` when `strictly` is truthy and
`<= 0` otherwise. -/
def pandas_column_values_decreasing (strictly : Bool)
    (series : List (Option ℚ)) : List Bool :=
  let d := (seriesDiff series).map (fun o => o.getD (-1))
  if strictly then d.map (fun q => decide (q < 0))
  else d.map (fun q => decide (q ≤ 0))

/-- Claim C10. On every non-empty series, every position whose first difference
is null — the first element in particular — is marked decreasing under either
`strictly` mode; every other position is marked by comparing its difference
`< 0` (strict) or `<= 0` (non-strict). -/
theorem pandas_decreasing_first_element_bye (strictly : Bool)
    (series : List (Option ℚ)) (hne : series ≠ []) :
    (pandas_column_values_decreasing strictly series).head? = some true ∧
    (∀ i, (seriesDiff series).get? i = some none →
      (pandas_column_values_decreasing strictly series).get? i = some true) ∧
    (∀ i d, (seriesDiff series).get? i = some (some d) →
      (pandas_column_values_decreasing strictly series).get? i
        = some (if strictly then decide (d < 0) else decide (d ≤ 0))) := by
  refine ⟨?_, ?_, ?_⟩
  · cases series with
    | nil => exact absurd rfl hne
    | cons x xs =>
      cases strictly <;>
        simp [pandas_column_values_decreasing, seriesDiff, List.head?]
  · intro i hi
    have hi' : (seriesDiff series)[i]? = some none := by
      simpa [List.get?_eq_getElem?] using hi
    cases strictly <;> simp [pandas_column_values_decreasing, List.getElem?_map, hi']
  · intro i d hi
    have hi' : (seriesDiff series)[i]? = some (some d) := by
      simpa [List.get?_eq_getElem?] using hi
    cases strictly <;>
      simp [pandas_column_values_decreasing, List.getElem?_map, hi']

/-- Witness for C10: on `[3, 2, 2]` (non-strict) the first element gets its
bye and the flat step `2 → 2` still counts as decreasing. -/
theorem pandas_decreasing_first_element_bye_witness :
    (pandas_column_values_decreasing false
      [some 3, some 2, some 2]).head? = some true ∧
    (pandas_column_values_decreasing false
      [some 3, some 2, some 2]).get? 2 = some true := by
  have h := pandas_decreasing_first_element_bye false [some 3, some 2, some 2]
    (by simp)
  refine ⟨h.1, ?_⟩
  have h2 := h.2.2 2 ((2 : ℚ) - 2) rfl
  rw [h2]
  simp only [Bool.false_eq_true, if_false, decide_eq_true_eq]
  norm_num

end GE
